import Mathlib

/-!
# Stack traces of lib/base/stacktrace.cpp

A shallow embedding of `StackTrace` (capture in the two constructors, the
once-guarded `Initialize`, and `Print`) together with the properties of the
trace formatter and the frame capturer.

Conventions of the embedding:

* text is a list of characters (`Text`); the output stream `fp` is the text
  written to it so far;
* `int` values are integers, additions and subtractions on them wrap to 32 bits
  two's complement (`wrapInt`);
* the preprocessor conditionals are two booleans (`Build`);
* the native facilities (`backtrace`, `backtrace_symbols`, the DbgHelp lookups,
  `StackWalk64`) and `Utility::DemangleSymbolName` are parameters (`Natives`);
* what the class declaration fixes (it is in a header, not in the .cpp file) is
  a parameter as well (`Header`).
-/

namespace Icinga

/-- Text: the characters of a C string (without the terminating NUL) or of stream output. -/
abbrev Text := List Char

/-- Raw instruction address (a `void *`). -/
abbrev Addr := Nat

/-- Largest value of `int`. -/
def INT_MAX : Int := 2147483647

/-- Smallest value of `int`. -/
def INT_MIN : Int := -2147483648

/-- The 32-bit two's complement value an `int` computation wraps to. -/
def wrapInt (x : Int) : Int := (x + 2147483648) % 4294967296 - 2147483648

/-- Decimal digits of a natural number, as `operator<<` writes an unsigned value. -/
def showNat (n : Nat) : Text := Nat.toDigits 10 n

/-- Decimal text of an `int`, as `operator<<` writes it. -/
def showInt (x : Int) : Text :=
  if x < 0 then '-' :: showNat (-x).toNat else showNat x.toNat

/-- The preprocessor symbols the file branches on. -/
structure Build where
  /-- Whether `HAVE_BACKTRACE_SYMBOLS` is set (execinfo is there). -/
  HAVE_BACKTRACE_SYMBOLS : Bool
  /-- Whether `_WIN32` is defined. -/
  WIN32 : Bool
  /-- The value of `sizeof(void *)`, the size of one element of `m_Frames`. -/
  sizeofPtr : Nat
deriving DecidableEq, Repr

/-- What the class declaration of `StackTrace` fixes; the header is not part of
the translation unit, so both are parameters. -/
structure Header where
  /-- Number of elements of the array member `m_Frames`. -/
  capacity : Nat
  /-- Whether `m_Count` is declared with an unsigned type (then the `int` loop
  variable is converted to unsigned before `i < m_Count` is evaluated). When
  false, `m_Count` is an `int`, the type `backtrace` returns and
  `backtrace_symbols` takes. -/
  countUnsigned : Bool
deriving DecidableEq, Repr

/-- The native facilities and the helper the formatter calls. -/
structure Natives where
  /-- The line `backtrace_symbols` produces for one address. -/
  symbolLine : Addr → Text
  /-- Whether `backtrace_symbols` could allocate its result (it returns NULL
  otherwise). -/
  symbolsAllocated : Bool
  /-- The helper `Utility::DemangleSymbolName`. -/
  DemangleSymbolName : Text → Text
  /-- The lookup `SymGetLineFromAddr64`: on success the file name and the line number. -/
  SymGetLineFromAddr64 : Addr → Option (Text × Nat)
  /-- The lookup `SymFromAddr`: on success the symbol name and the displacement. -/
  SymFromAddr : Addr → Option (Text × Nat)

/-- The call `backtrace_symbols(buffer, size)`: NULL, or an array holding one line for
each of the `size` addresses. -/
def backtrace_symbols (nat : Natives) (buffer : List Addr) (size : Nat) : Option (List Text) :=
  if nat.symbolsAllocated then some ((buffer.take size).map nat.symbolLine) else none

/-- A `StackTrace` object: the array `m_Frames` (all its cells, those at and
beyond `m_Count` hold whatever was there) and `m_Count`. -/
structure StackTrace where
  m_Frames : List Addr
  m_Count : Nat
deriving DecidableEq, Repr

/-- The class invariant: `m_Frames` has `capacity` cells, the first `m_Count`
of which are the captured addresses, and `m_Count` is a value of `int`. -/
def StackTrace.Valid (hdr : Header) (t : StackTrace) : Prop :=
  t.m_Frames.length = hdr.capacity ∧ t.m_Count ≤ hdr.capacity ∧ (t.m_Count : Int) ≤ INT_MAX

/-- The C function `strchr(s, c)`: the offset of the first occurrence of `c` in `s`, if any. -/
def strchr : Text → Char → Option Nat
  | [], _ => none
  | x :: xs, c => if x = c then some 0 else (strchr xs c).map (· + 1)

/-- The marker written for a symbol without a demangled name. -/
def unknownFunctionUnix : Text :=
  ['<', 'u', 'n', 'k', 'n', 'o', 'w', 'n', ' ', 'f', 'u', 'n', 'c', 't', 'i', 'o', 'n', '>']

/-- The marker written on Windows when the symbol lookup fails. -/
def unknownFunctionWin : Text :=
  ['(', 'u', 'n', 'k', 'n', 'o', 'w', 'n', ' ', 'f', 'u', 'n', 'c', 't', 'i', 'o', 'n', ')']

/-- The marker written on Windows when the line lookup fails. -/
def unknownFileLine : Text :=
  ['(', 'u', 'n', 'k', 'n', 'o', 'w', 'n', ' ', 'f', 'i', 'l', 'e', '/', 'l', 'i', 'n', 'e', ')']

/-- The value of `message` at the end of one iteration of the
`backtrace_symbols` loop (lines 114-130), for the symbol line `line`. -/
def unixMessage (nat : Natives) (line : Text) : Text :=
  match strchr line '(' with
  | none => line
  | some p =>
    -- sym_begin = line + p
    match strchr (line.drop p) '+' with
    | none => line
    | some r =>
      -- sym_end = sym_begin + r
      let sym := (line.drop (p + 1)).take (r - 1)
      let sym_demangled := nat.DemangleSymbolName sym
      let sym_demangled := if sym_demangled.isEmpty then unknownFunctionUnix else sym_demangled
      line.take p ++ [':', ' '] ++ sym_demangled ++ [' ', '('] ++ line.drop (p + r)

/-- What one iteration of the Windows loop writes after the index (lines
157-167), for the frame address `dwAddress`. -/
def winMessage (nat : Natives) (dwAddress : Addr) : Text :=
  (match nat.SymGetLineFromAddr64 dwAddress with
   | some (fileName, lineNumber) => fileName ++ [':'] ++ showNat lineNumber
   | none => unknownFileLine)
  ++ [':', ' '] ++
  (match nat.SymFromAddr dwAddress with
   | some (name, dwDisplacement64) => name ++ ['+'] ++ showNat dwDisplacement64
   | none => unknownFunctionWin)

/-- What a run of `Print` did: the text written to `fp`, the indices at which
it read an entry of `messages` (Unix) or of `m_Frames` (Windows), in order,
and whether it read outside the array. A read outside the array is undefined
behaviour: the run is followed up to that read and no further. -/
structure Printed where
  out : Text
  reads : List Int
  fault : Bool
deriving DecidableEq, Repr

/-- Reading `arr[i]` for an `int` index: defined inside the array only. -/
def readAt {α : Type} (arr : List α) (i : Int) : Option α :=
  if 0 ≤ i then arr[i.toNat]? else none

/-- The comparison `i < m_Count` of the loop headers, `i` being an `int`: a
signed comparison when `m_Count` is an `int`; when `m_Count` is unsigned, `i`
is converted first (modulo 2^32; a wider unsigned type decides every `int`
value of `i` the same way, `m_Count` being at most `INT_MAX`). -/
def ltCount (hdr : Header) (i : Int) (m_Count : Nat) : Bool :=
  if hdr.countUnsigned then decide (i % 4294967296 < (m_Count : Int))
  else decide (i < (m_Count : Int))

/-- The text written for the frame the loop variable `i` stands at:
`"\t(" << i - ignoreFrames - 1 << ") " << message << std::endl`. -/
def frameLine (ignoreFrames i : Int) (message : Text) : Text :=
  ['\t', '('] ++ showInt (wrapInt (wrapInt (i - ignoreFrames) - 1)) ++ [')', ' '] ++ message ++ ['\n']

/-- The two `for` loops of `Print` (lines 113-133 and 142-170), which differ
in the array read (`arr`), in the extra test `messages != NULL` (`live`) and
in the descriptor written (`describe`): starting from the loop variable `i`,
while `i < m_Count` (and `live`), read `arr[i]`, write the frame line,
increment `i`. Since `i < m_Count` and `m_Count` is an `int`, `++i` does not
overflow. -/
def printLoop {α : Type} (hdr : Header) (m_Count : Nat) (live : Bool) (arr : List α)
    (describe : α → Text) (ignoreFrames : Int) (i : Int) (acc : Printed) : Printed :=
  if ltCount hdr i m_Count && live then
    match h : readAt arr i with
    | none => { acc with reads := acc.reads ++ [i], fault := true }
    | some entry =>
      printLoop hdr m_Count live arr describe ignoreFrames (i + 1)
        { acc with out := acc.out ++ frameLine ignoreFrames i (describe entry),
                   reads := acc.reads ++ [i] }
  else acc
termination_by arr.length - i.toNat
decreasing_by
  unfold readAt at h
  split at h
  · have hlt : i.toNat < arr.length := by
      by_contra hc
      rw [List.getElem?_eq_none (by omega)] at h
      exact absurd h (by simp)
    omega
  · exact absurd h (by simp)

/-- The header `Print` starts with: `std::endl << "Stacktrace:" << std::endl`. -/
def stacktraceHeader : Text :=
  ['\n'] ++ ['S', 't', 'a', 'c', 'k', 't', 'r', 'a', 'c', 'e', ':'] ++ ['\n']

/-- The line written where there is no symbolication at all. -/
def notAvailable : Text :=
  ['(', 'n', 'o', 't', ' ', 'a', 'v', 'a', 'i', 'l', 'a', 'b', 'l', 'e', ')'] ++ ['\n']

/-- The method `StackTrace::Print(fp, ignoreFrames)` (lines 105-172). -/
def StackTrace.Print (b : Build) (hdr : Header) (nat : Natives) (t : StackTrace)
    (ignoreFrames : Int) : Printed :=
  let start : Printed := { out := stacktraceHeader, reads := [], fault := false }
  if !b.WIN32 then
    if b.HAVE_BACKTRACE_SYMBOLS then
      let messages := backtrace_symbols nat t.m_Frames t.m_Count
      let r := printLoop hdr t.m_Count messages.isSome (messages.getD []) (unixMessage nat)
        ignoreFrames (wrapInt (ignoreFrames + 1)) start
      if r.fault then r else { r with out := r.out ++ ['\n'] }
    else
      { start with out := start.out ++ notAvailable }
  else
    printLoop hdr t.m_Count true t.m_Frames (winMessage nat)
      ignoreFrames (wrapInt (ignoreFrames + 1)) start

/-! ## Capture -/

/-- The call `backtrace(buffer, size)`: the addresses it stores for the call stack
`stack` (innermost first), at most `size` of them; it returns their number. -/
def backtrace (stack : List Addr) (size : Nat) : List Addr := stack.take size

/-- The call `CaptureStackBackTrace(0, FramesToCapture, BackTrace, NULL)`: the addresses
it stores for the call stack `stack`, at most `FramesToCapture` of them; it
returns their number. -/
def CaptureStackBackTrace (stack : List Addr) (FramesToCapture : Nat) : List Addr :=
  stack.take FramesToCapture

/-- The value of `sizeof(m_Frames)`. -/
def sizeofFrames (b : Build) (hdr : Header) : Nat := hdr.capacity * b.sizeofPtr

/-- The value of `sizeof(m_Frames[0])`. -/
def sizeofFrame0 (b : Build) : Nat := b.sizeofPtr

/-- The constructor `StackTrace::StackTrace(void)` (lines 33-46) run on the call stack `stack`;
`cells` is what the array `m_Frames` holds before (it is not initialised). The
once-guarded call of `Initialize` is in `construct` below. -/
def StackTrace.StackTraceVoid (b : Build) (hdr : Header) (stack : List Addr) (cells : List Addr) :
    StackTrace :=
  if b.HAVE_BACKTRACE_SYMBOLS then
    let got := backtrace stack (sizeofFrames b hdr / sizeofFrame0 b)
    { m_Frames := got ++ cells.drop got.length, m_Count := got.length }
  else if b.WIN32 then
    let got := CaptureStackBackTrace stack (sizeofFrames b hdr / sizeofFrames b hdr)
    { m_Frames := got ++ cells.drop got.length, m_Count := got.length }
  else
    { m_Frames := cells, m_Count := 0 }

/-- A run of the fault-context constructor: the object built so far, the
number of calls of `StackWalk64` made, and the indices of `m_Frames` written,
in order. -/
structure Walked where
  trace : StackTrace
  calls : Nat
  writes : List Nat
deriving DecidableEq, Repr

/-- The `while` loop of `StackTrace::StackTrace(PEXCEPTION_POINTERS)` (lines
80-85). `StackWalk64 frame` is `none` when the call returns FALSE and the
updated frame (with the context record it walks) otherwise; `AddrPC` is
`frame.AddrPC.Offset`; `elems` is `sizeof(m_Frames) / sizeof(m_Frames[0])`.
The call comes first in the condition, the test of `m_Count` second. -/
def walkLoop {σ : Type} (StackWalk64 : σ → Option σ) (AddrPC : σ → Addr) (elems : Nat)
    (frame : σ) (w : Walked) : Walked :=
  match StackWalk64 frame with
  | none => { w with calls := w.calls + 1 }
  | some frame1 =>
    if w.trace.m_Count < elems then
      walkLoop StackWalk64 AddrPC elems frame1
        { trace := { m_Frames := w.trace.m_Frames.set w.trace.m_Count (AddrPC frame1),
                     m_Count := w.trace.m_Count + 1 },
          calls := w.calls + 1,
          writes := w.writes ++ [w.trace.m_Count] }
    else { w with calls := w.calls + 1 }
termination_by elems - w.trace.m_Count

/-- The constructor `StackTrace::StackTrace(PEXCEPTION_POINTERS exi)` (lines 53-86); `frame`
is the `STACKFRAME64` filled from `exi->ContextRecord`, `cells` what `m_Frames`
holds before. -/
def StackTrace.StackTraceExi {σ : Type} (b : Build) (hdr : Header)
    (StackWalk64 : σ → Option σ) (AddrPC : σ → Addr) (frame : σ) (cells : List Addr) : Walked :=
  walkLoop StackWalk64 AddrPC (sizeofFrames b hdr / sizeofFrame0 b) frame
    { trace := { m_Frames := cells, m_Count := 0 }, calls := 0, writes := [] }

/-- The frame after `n` successful calls of `StackWalk64` from `frame`, if
the first `n` calls all succeed. -/
def walkN {σ : Type} (StackWalk64 : σ → Option σ) : Nat → σ → Option σ
  | 0, frame => some frame
  | n + 1, frame => (StackWalk64 frame).bind (walkN StackWalk64 n)

/-! ## The once flag -/

/-- What happens in the process, in order. -/
inductive Event where
  /-- The function `StackTrace::Initialize` runs. -/
  | Initialize
  /-- A constructor captures frames (`fault`: the fault-context one). -/
  | capture (fault : Bool)
  /-- The method `Print` runs on the trace constructed as number `t`. -/
  | print (t : Nat)
deriving DecidableEq, Repr

/-- The process: the static `m_OnceFlag`, the events so far and the number of
`StackTrace` objects constructed. -/
structure Process where
  m_OnceFlag : Bool
  events : List Event
  traces : Nat
deriving DecidableEq, Repr

/-- The process at start: `m_OnceFlag = BOOST_ONCE_INIT`. -/
def Process.start : Process := { m_OnceFlag := false, events := [], traces := 0 }

/-- The call `boost::call_once(m_OnceFlag, &StackTrace::Initialize)`. -/
def call_once (p : Process) : Process :=
  if p.m_OnceFlag then p
  else { p with m_OnceFlag := true, events := p.events ++ [Event.Initialize] }

/-- Either constructor: `call_once` first (lines 35 and 55), the capture after. -/
def construct (fault : Bool) (p : Process) : Process :=
  let p1 := call_once p
  { p1 with events := p1.events ++ [Event.capture fault], traces := p1.traces + 1 }

/-- One operation of a program using the class. -/
inductive Op where
  | newTrace (fault : Bool)
  | printTrace (t : Nat)
deriving DecidableEq, Repr

/-- One operation; `Print` needs an object, so printing a trace that was not
constructed is not a step. -/
def Process.step (p : Process) : Op → Option Process
  | Op.newTrace fault => some (construct fault p)
  | Op.printTrace t =>
    if t < p.traces then some { p with events := p.events ++ [Event.print t] } else none

/-- A sequence of operations. -/
def Process.run (p : Process) : List Op → Option Process
  | [] => some p
  | op :: ops => (p.step op).bind (fun q => q.run ops)

/-! ## Descriptions of the output -/

/-- The text the loop writes for the entries `es`, the loop variable starting at `i`. -/
def loopLines {α : Type} (describe : α → Text) (ignoreFrames : Int) : Int → List α → Text
  | _, [] => []
  | i, e :: es => frameLine ignoreFrames i (describe e) ++ loopLines describe ignoreFrames (i + 1) es

/-- Frame lines for the descriptors `ds`, numbered upwards from `idx`: each is
TAB, `(`, the index, `)`, a space, the descriptor and a line break. -/
def numberedLines : Nat → List Text → Text
  | _, [] => []
  | idx, d :: ds =>
    ['\t', '('] ++ showNat idx ++ [')', ' '] ++ d ++ ['\n'] ++ numberedLines (idx + 1) ds

/-- The descriptor `Print` writes for the frame address `a` on a symbolicating build. -/
def descriptorOf (b : Build) (nat : Natives) (a : Addr) : Text :=
  if b.WIN32 then winMessage nat a else unixMessage nat (nat.symbolLine a)

/-- What `Print` writes after the frame lines on a symbolicating build. -/
def trailerOf (b : Build) : Text :=
  if b.WIN32 then [] else ['\n']

/-- A descriptor carries one of the three markers of the source. -/
def hasUnknownMarker (d : Text) : Prop :=
  unknownFunctionUnix <:+: d ∨ unknownFunctionWin <:+: d ∨ unknownFileLine <:+: d

instance (d : Text) : Decidable (hasUnknownMarker d) := by
  unfold hasUnknownMarker; infer_instance

/-- The name shown for the symbol `sym`: its demangled form, or the marker
when `DemangleSymbolName` gives the empty string. -/
def shownName (nat : Natives) (sym : Text) : Text :=
  if (nat.DemangleSymbolName sym).isEmpty then unknownFunctionUnix else nat.DemangleSymbolName sym

/-- The character `c` occurs in `s` at offset `p` and nowhere before. -/
def firstAt (s : Text) (c : Char) (p : Nat) : Prop :=
  s[p]? = some c ∧ ∀ j, j < p → s[j]? ≠ some c

/-- The file and line field of a Windows descriptor, from the outcome of the
line lookup alone. -/
def lineField : Option (Text × Nat) → Text
  | some (file, line) => file ++ [':'] ++ showNat line
  | none => unknownFileLine

/-- The function field of a Windows descriptor, from the outcome of the
symbol lookup alone. -/
def functionField : Option (Text × Nat) → Text
  | some (name, displacement) => name ++ ['+'] ++ showNat displacement
  | none => unknownFunctionWin

/-! ## Sample inputs -/

/-- A build with `backtrace_symbols`. -/
def sampleUnix : Build := { HAVE_BACKTRACE_SYMBOLS := true, WIN32 := false, sizeofPtr := 8 }

/-- A Windows build. -/
def sampleWindows : Build := { HAVE_BACKTRACE_SYMBOLS := false, WIN32 := true, sizeofPtr := 8 }

/-- A class with two frame cells and an `int` count. -/
def sampleHeader : Header := { capacity := 2, countUnsigned := false }

/-- A class with 64 frame cells and an `int` count. -/
def sampleHeader64 : Header := { capacity := 64, countUnsigned := false }

/-- Natives that know no symbol: `backtrace_symbols` gives the bare address in
brackets, both DbgHelp lookups fail. -/
def sampleNoSymbols : Natives :=
  { symbolLine := fun _ => ['[', '0', 'x', '4', '0', '0', '6', 'b', '5', ']'],
    symbolsAllocated := true,
    DemangleSymbolName := fun _ => [],
    SymGetLineFromAddr64 := fun _ => none,
    SymFromAddr := fun _ => none }

/-- The line `./prog(_Z1fv+0x11) [0x4006b5]`. -/
def sampleLine : Text :=
  ['.', '/', 'p', 'r', 'o', 'g', '(', '_', 'Z', '1', 'f', 'v', '+', '0', 'x', '1', '1', ')',
   ' ', '[', '0', 'x', '4', '0', '0', '6', 'b', '5', ']']

/-- Natives that resolve: every address is in `f()`, at `a.cpp:7`. -/
def sampleNatives : Natives :=
  { symbolLine := fun _ => sampleLine,
    symbolsAllocated := true,
    DemangleSymbolName := fun sym => if sym = ['_', 'Z', '1', 'f', 'v'] then ['f', '(', ')'] else [],
    SymGetLineFromAddr64 := fun _ => some (['a', '.', 'c', 'p', 'p'], 7),
    SymFromAddr := fun _ => some (['f'], 4) }

/-- A trace of depth two. -/
def sampleTrace : StackTrace := { m_Frames := [10, 11], m_Count := 2 }

/-- A frame walker over the naturals that succeeds three times: from `n` it
steps to `n + 1` while `n < 3`; the program counter of state `n` is `100 + n`. -/
def sampleWalk (n : Nat) : Option Nat := if n < 3 then some (n + 1) else none

/-- The program counter of the sample walker. -/
def samplePC (n : Nat) : Addr := 100 + n

/-- Natives whose lines carry a mangled name that `DemangleSymbolName` turns
into the empty string; the DbgHelp lookups fail. -/
def sampleUndemangled : Natives :=
  { symbolLine := fun _ => sampleLine,
    symbolsAllocated := true,
    DemangleSymbolName := fun _ => [],
    SymGetLineFromAddr64 := fun _ => none,
    SymFromAddr := fun _ => none }

/-- A program: a normal construction, a print, a fault-context construction,
a print of each trace. -/
def sampleOps : List Op :=
  [Op.newTrace false, Op.printTrace 0, Op.newTrace true, Op.printTrace 1, Op.printTrace 0]

/-- The process after `sampleOps`. -/
def sampleProcess : Process :=
  { m_OnceFlag := true,
    events := [Event.Initialize, Event.capture false, Event.print 0, Event.capture true,
      Event.print 1, Event.print 0],
    traces := 2 }

/-! # Theorems -/

/-! ## Machine integers and the loop -/

theorem ltCount_nat (hdr : Header) (i count : Nat) (hc : (i : Int) ≤ INT_MAX) :
    ltCount hdr (i : Int) count = decide (i < count) := by
  unfold INT_MAX at hc
  unfold ltCount
  split
  · have h1 : ((i : Int) % 4294967296) = i := Int.emod_eq_of_lt (by omega) (by omega)
    rw [h1]; simp
  · simp

theorem printLoop_stop {α : Type} (hdr : Header) (count : Nat) (live : Bool) (arr : List α)
    (describe : α → Text) (k i : Int) (acc : Printed)
    (h : (ltCount hdr i count && live) = false) :
    printLoop hdr count live arr describe k i acc = acc := by
  rw [printLoop]
  simp [h]

theorem printLoop_step {α : Type} (hdr : Header) (count : Nat) (live : Bool) (arr : List α)
    (describe : α → Text) (k i : Int) (acc : Printed) (e : α)
    (h : (ltCount hdr i count && live) = true) (hr : readAt arr i = some e) :
    printLoop hdr count live arr describe k i acc =
      printLoop hdr count live arr describe k (i + 1)
        { acc with out := acc.out ++ frameLine k i (describe e), reads := acc.reads ++ [i] } := by
  rw [printLoop]
  simp only [h, if_true]
  split
  · rename_i h2; rw [hr] at h2; exact absurd h2 (by simp)
  · rename_i e2 h2; rw [hr] at h2; cases h2; rfl

theorem printLoop_fault {α : Type} (hdr : Header) (count : Nat) (live : Bool) (arr : List α)
    (describe : α → Text) (k i : Int) (acc : Printed)
    (h : (ltCount hdr i count && live) = true) (hr : readAt arr i = none) :
    printLoop hdr count live arr describe k i acc =
      { acc with reads := acc.reads ++ [i], fault := true } := by
  rw [printLoop]
  simp only [h, if_true]
  split
  · rfl
  · rename_i e2 h2; rw [hr] at h2; exact absurd h2 (by simp)


theorem wrapInt_id (x : Int) (h1 : INT_MIN ≤ x) (h2 : x ≤ INT_MAX) : wrapInt x = x := by
  unfold INT_MIN at h1; unfold INT_MAX at h2; unfold wrapInt; omega

theorem readAt_nat {α : Type} (arr : List α) (i : Nat) (h : i < arr.length) :
    readAt arr (i : Int) = some arr[i] := by
  unfold readAt
  simp [h]

theorem printLoop_run {α : Type} (hdr : Header) (count : Nat) (arr : List α)
    (describe : α → Text) (k : Int) (hlen : count ≤ arr.length) (hmax : (count : Int) ≤ INT_MAX) :
    ∀ (m i : Nat) (acc : Printed), i + m = count →
      printLoop hdr count true arr describe k (i : Int) acc =
        { out := acc.out ++ loopLines describe k (i : Int) ((arr.take count).drop i),
          reads := acc.reads ++ (List.range' i m).map Int.ofNat,
          fault := acc.fault } := by
  intro m
  induction m with
  | zero =>
    intro i acc h
    have hi : i = count := by omega
    subst hi
    rw [printLoop_stop]
    · have hnil : List.drop i (List.take i arr) = [] := by
        apply List.drop_eq_nil_of_le
        simp
      rw [hnil]
      simp [loopLines]
    · rw [ltCount_nat hdr i i hmax]; simp
  | succ m ih =>
    intro i acc h
    have hi : i < count := by omega
    have hia : i < arr.length := by omega
    rw [printLoop_step hdr count true arr describe k i acc arr[i]
      (by rw [ltCount_nat hdr i count (by omega)]; simp [hi]) (readAt_nat arr i hia)]
    have hnext : ((i : Int) + 1) = ((i + 1 : Nat) : Int) := by push_cast; rfl
    rw [hnext, ih (i + 1) _ (by omega)]
    have hdrop : (arr.take count).drop i = arr[i] :: (arr.take count).drop (i + 1) := by
      have hl : i < (arr.take count).length := by simp; omega
      rw [List.drop_eq_getElem_cons hl]
      simp
    rw [hdrop]
    simp [loopLines, List.range'_succ, List.append_assoc]


theorem showInt_nat (j : Nat) : showInt (j : Int) = showNat j := by
  unfold showInt
  have h : ¬ ((j : Int) < 0) := by omega
  simp [h]

theorem loopLines_numbered {α : Type} (describe : α → Text) (k : Int) :
    ∀ (es : List α) (j : Nat), ((j + es.length : Nat) : Int) ≤ INT_MAX →
      loopLines describe k (k + 1 + (j : Int)) es = numberedLines j (es.map describe) := by
  intro es
  induction es with
  | nil => intro j _; simp [loopLines, numberedLines]
  | cons e es ih =>
    intro j hj
    simp only [List.length_cons] at hj
    have h1 : k + 1 + (j : Int) - k = (j : Int) + 1 := by ring
    have h2 : wrapInt ((j : Int) + 1) = (j : Int) + 1 :=
      wrapInt_id _ (by unfold INT_MIN; omega) (by push_cast at hj; omega)
    have h3 : wrapInt ((j : Int) + 1 - 1) = (j : Int) := by
      rw [show (j : Int) + 1 - 1 = (j : Int) by ring]
      exact wrapInt_id _ (by unfold INT_MIN; omega) (by push_cast at hj; omega)
    have h4 : k + 1 + (j : Int) + 1 = k + 1 + ((j + 1 : Nat) : Int) := by push_cast; ring
    simp only [loopLines, List.map_cons, numberedLines, frameLine, h1, h2, h3, showInt_nat]
    rw [h4, ih (j + 1) (by push_cast at hj ⊢; omega)]


theorem printLoop_from {α : Type} (hdr : Header) (count : Nat) (arr : List α)
    (describe : α → Text) (k : Int) (hlen : count ≤ arr.length)
    (hmax : (count : Int) ≤ INT_MAX) (hk1 : -1 ≤ k) (hk2 : k < INT_MAX) (acc : Printed) :
    printLoop hdr count true arr describe k (wrapInt (k + 1)) acc =
      { out := acc.out ++ numberedLines 0 (((arr.take count).drop (k + 1).toNat).map describe),
        reads := acc.reads ++ (List.range' (k + 1).toNat (count - (k + 1).toNat)).map Int.ofNat,
        fault := acc.fault } := by
  have hw : wrapInt (k + 1) = (((k + 1).toNat : Nat) : Int) := by
    rw [wrapInt_id _ (by unfold INT_MIN; omega) (by omega)]
    omega
  rw [hw]
  by_cases hs : (k + 1).toNat ≤ count
  · rw [printLoop_run hdr count arr describe k hlen hmax (count - (k + 1).toNat) (k + 1).toNat acc
      (by omega)]
    have h0 : (((k + 1).toNat : Nat) : Int) = k + 1 + ((0 : Nat) : Int) := by
      push_cast; omega
    rw [h0, loopLines_numbered describe k _ 0]
    simp only [Nat.zero_add, List.length_drop, List.length_take]
    have : min count arr.length = count := by omega
    rw [this]
    omega
  · have hnil : (arr.take count).drop (k + 1).toNat = [] := by
      apply List.drop_eq_nil_of_le
      simp; omega
    have hz : count - (k + 1).toNat = 0 := by omega
    rw [printLoop_stop, hnil, hz]
    · simp [numberedLines]
    · rw [ltCount_nat hdr _ count (by unfold INT_MAX at *; omega)]
      simp; omega

theorem Print_inbounds (b : Build) (hdr : Header) (nat : Natives) (t : StackTrace) (k : Int)
    (hv : t.Valid hdr) (hk1 : -1 ≤ k) (hk2 : k < INT_MAX)
    (hb : b.WIN32 = true ∨ (b.HAVE_BACKTRACE_SYMBOLS = true ∧ nat.symbolsAllocated = true)) :
    t.Print b hdr nat k =
      { out := stacktraceHeader ++
          numberedLines 0 (((t.m_Frames.take t.m_Count).drop (k + 1).toNat).map (descriptorOf b nat))
          ++ trailerOf b,
        reads := (List.range' (k + 1).toNat (t.m_Count - (k + 1).toNat)).map Int.ofNat,
        fault := false } := by
  obtain ⟨hlen, hcap, hmax⟩ := hv
  unfold StackTrace.Print
  by_cases hw : b.WIN32 = true
  · simp only [hw, Bool.not_true, Bool.false_eq_true, if_false]
    rw [printLoop_from hdr t.m_Count t.m_Frames (winMessage nat) k (by omega) hmax hk1 hk2]
    have hd : descriptorOf b nat = winMessage nat := by
      funext a; simp [descriptorOf, hw]
    simp [hd, trailerOf, hw]
  · rcases hb with hb | ⟨hb1, hb2⟩
    · exact absurd hb hw
    · have hw2 : b.WIN32 = false := by simpa using hw
      simp only [hw2, Bool.not_false, if_true, hb1, backtrace_symbols, hb2, Option.isSome_some,
        Option.getD_some]
      rw [printLoop_from hdr t.m_Count _ (unixMessage nat) k (by simp; omega) hmax hk1 hk2]
      have hd : descriptorOf b nat = fun a => unixMessage nat (nat.symbolLine a) := by
        funext a; simp [descriptorOf, hw2]
      simp [hd, trailerOf, hw2, List.map_drop, List.map_take, List.take_take]
      rfl


/-! ## `strchr` -/

theorem strchr_none (s : Text) (c : Char) : strchr s c = none ↔ c ∉ s := by
  induction s with
  | nil => simp [strchr]
  | cons x xs ih =>
    unfold strchr
    by_cases hx : x = c
    · simp [hx]
    · simp only [hx, if_false, Option.map_eq_none', ih, List.mem_cons, not_or]
      constructor
      · intro h; exact ⟨fun e => hx e.symm, h⟩
      · intro h; exact h.2

theorem strchr_some (s : Text) (c : Char) (p : Nat) : strchr s c = some p ↔ firstAt s c p := by
  induction s generalizing p with
  | nil => simp [strchr, firstAt]
  | cons x xs ih =>
    unfold strchr
    by_cases hx : x = c
    · simp only [hx, if_true, Option.some.injEq]
      constructor
      · intro h; subst h; exact ⟨by simp, fun j hj => absurd hj (by omega)⟩
      · intro h
        by_contra hp
        exact h.2 0 (by omega) (by simp)
    · simp only [hx, if_false, Option.map_eq_some']
      constructor
      · rintro ⟨r, hr, rfl⟩
        obtain ⟨h1, h2⟩ := (ih r).1 hr
        refine ⟨by simpa using h1, ?_⟩
        intro j hj
        cases j with
        | zero => simpa using hx
        | succ j => simpa using h2 j (by omega)
      · rintro ⟨h1, h2⟩
        cases p with
        | zero => simp at h1; exact absurd h1 hx
        | succ r =>
          refine ⟨r, (ih r).2 ⟨by simpa using h1, ?_⟩, rfl⟩
          intro j hj
          simpa using h2 (j + 1) (by omega)

/-! ## The descriptor of the `backtrace_symbols` branch -/

theorem unixMessage_found (nat : Natives) (s : Text) (p r : Nat)
    (h1 : strchr s '(' = some p) (h2 : strchr (s.drop p) '+' = some r) :
    unixMessage nat s =
      s.take p ++ [':', ' '] ++ shownName nat ((s.drop (p + 1)).take (r - 1)) ++ [' ', '(']
        ++ s.drop (p + r) := by
  unfold unixMessage shownName
  simp only [h1, h2]

theorem unixMessage_no_paren (nat : Natives) (s : Text) (h1 : strchr s '(' = none) :
    unixMessage nat s = s := by
  unfold unixMessage
  simp only [h1]

theorem unixMessage_no_plus (nat : Natives) (s : Text) (p : Nat)
    (h1 : strchr s '(' = some p) (h2 : strchr (s.drop p) '+' = none) :
    unixMessage nat s = s := by
  unfold unixMessage
  simp only [h1, h2]

theorem strchr_plus_after (s : Text) (p q : Nat) (hp : s[p]? = some '(') (hpq : p < q)
    (hq : s[q]? = some '+') (hmin : ∀ j, p < j → j < q → s[j]? ≠ some '+') :
    strchr (s.drop p) '+' = some (q - p) := by
  rw [strchr_some]
  refine ⟨?_, ?_⟩
  · rw [List.getElem?_drop]
    have : p + (q - p) = q := by omega
    rw [this]; exact hq
  · intro j hj
    rw [List.getElem?_drop]
    cases j with
    | zero => rw [Nat.add_zero, hp]; decide
    | succ j => exact hmin (p + (j + 1)) (by omega) (by omega)

theorem sampleTrace_valid : sampleTrace.Valid sampleHeader := by
  unfold StackTrace.Valid; decide

theorem count_tab_numberedLines (ds : List Text) :
    ∀ idx, ds.length ≤ List.count '\t' (numberedLines idx ds) := by
  induction ds with
  | nil => intro idx; simp
  | cons d ds ih =>
    intro idx
    have := ih (idx + 1)
    have e : (if ('\t' == '\t') = true then 1 else 0) = 1 := by decide
    simp only [numberedLines, List.length_cons, List.count_append, List.count_cons,
      List.count_nil, e]
    omega

theorem Print_negative_start (b : Build) (hdr : Header) (nat : Natives) (t : StackTrace)
    (k : Int) (hs : hdr.countUnsigned = false) (hneg : wrapInt (k + 1) < 0)
    (hb : b.WIN32 = true ∨ (b.HAVE_BACKTRACE_SYMBOLS = true ∧ nat.symbolsAllocated = true)) :
    t.Print b hdr nat k =
      { out := stacktraceHeader, reads := [wrapInt (k + 1)], fault := true } := by
  have hlt : ltCount hdr (wrapInt (k + 1)) t.m_Count = true := by
    unfold ltCount
    simp only [hs, Bool.false_eq_true, if_false, decide_eq_true_eq]
    omega
  have hread : ∀ {α : Type} (arr : List α), readAt arr (wrapInt (k + 1)) = none := by
    intro α arr
    unfold readAt
    have : ¬ (0 ≤ wrapInt (k + 1)) := by omega
    simp only [this, if_false]
  unfold StackTrace.Print
  by_cases hw : b.WIN32 = true
  · simp only [hw, Bool.not_true, Bool.false_eq_true, if_false]
    rw [printLoop_fault _ _ _ _ _ _ _ _ (by simp [hlt]) (hread _)]
    simp
  · rcases hb with hb | ⟨hb1, hb2⟩
    · exact absurd hb hw
    · have hw2 : b.WIN32 = false := by simpa using hw
      simp only [hw2, Bool.not_false, if_true, hb1, backtrace_symbols, hb2, Option.isSome_some,
        Option.getD_some]
      rw [printLoop_fault _ _ _ _ _ _ _ _ (by simp [hlt]) (hread _)]
      simp

/-- C1 as stated fails: for the trace of depth 2 and `ignoreFrames = 0` the
text written is not the header followed by `2 - 0` numbered frame lines (it
holds one frame line). -/
theorem Print_ignore_zero_not_all_frames :
    ¬ ∃ ds : List Text, ds.length = sampleTrace.m_Count - 0 ∧
      (sampleTrace.Print sampleUnix sampleHeader sampleNoSymbols 0).out =
        stacktraceHeader ++ numberedLines 0 ds ++ trailerOf sampleUnix := by
  rintro ⟨ds, hlen, h⟩
  have h2 : List.count '\t' (sampleTrace.Print sampleUnix sampleHeader sampleNoSymbols 0).out
      = 1 := by
    rw [Print_inbounds sampleUnix sampleHeader sampleNoSymbols sampleTrace 0 sampleTrace_valid
      (by decide) (by decide) (Or.inr ⟨rfl, rfl⟩)]
    decide
  have h1 := count_tab_numberedLines ds 0
  have h3 : sampleTrace.m_Count - 0 = 2 := by decide
  rw [h, List.count_append, List.count_append] at h2
  omega

/-- C1 (amended): for a trace of depth `n = m_Count` and `0 ≤ k < n`, on a
symbolicating build (with a non-NULL symbol array on Unix), `Print(fp, k)`
writes, after the header, exactly `n - k - 1` frame lines, numbered `0, 1, ...`
in order, for the frames `k + 1, ..., n - 1`: frame 0 is skipped in addition
to the `k` frames asked for. No entry outside the array is read. -/
theorem Print_frame_lines (b : Build) (hdr : Header) (nat : Natives) (t : StackTrace) (k : Int)
    (hv : t.Valid hdr)
    (hb : b.WIN32 = true ∨ (b.HAVE_BACKTRACE_SYMBOLS = true ∧ nat.symbolsAllocated = true))
    (hk0 : 0 ≤ k) (hkn : k < (t.m_Count : Int)) :
    (((t.m_Frames.take t.m_Count).drop (k.toNat + 1)).map (descriptorOf b nat)).length
        = t.m_Count - k.toNat - 1
    ∧ (t.Print b hdr nat k).out =
        stacktraceHeader ++
          numberedLines 0 (((t.m_Frames.take t.m_Count).drop (k.toNat + 1)).map (descriptorOf b nat))
          ++ trailerOf b
    ∧ (t.Print b hdr nat k).fault = false := by
  have hmax := hv.2.2
  have hlen := hv.1
  have hcap := hv.2.1
  have hk : (k + 1).toNat = k.toNat + 1 := by omega
  rw [Print_inbounds b hdr nat t k hv (by omega) (by omega) hb, hk]
  refine ⟨?_, rfl, rfl⟩
  simp only [List.length_map, List.length_drop, List.length_take]
  omega

/-- Witness of C1 (amended): depth 2, `ignoreFrames = 0`, Unix. -/
theorem Print_frame_lines_witness :
    (((sampleTrace.m_Frames.take sampleTrace.m_Count).drop ((0 : Int).toNat + 1)).map
        (descriptorOf sampleUnix sampleNatives)).length
        = sampleTrace.m_Count - (0 : Int).toNat - 1
    ∧ (sampleTrace.Print sampleUnix sampleHeader sampleNatives 0).out =
        stacktraceHeader ++
          numberedLines 0 (((sampleTrace.m_Frames.take sampleTrace.m_Count).drop
            ((0 : Int).toNat + 1)).map (descriptorOf sampleUnix sampleNatives))
          ++ trailerOf sampleUnix
    ∧ (sampleTrace.Print sampleUnix sampleHeader sampleNatives 0).fault = false :=
  Print_frame_lines sampleUnix sampleHeader sampleNatives sampleTrace 0 sampleTrace_valid
    (Or.inr ⟨rfl, rfl⟩) (by decide) (by decide)

/-- C2 at its failing input: with `m_Count` an `int` and `ignoreFrames =
INT_MAX`, `ignoreFrames + 1` wraps to `INT_MIN`, the loop is entered and reads
the entry at index `INT_MIN`, on the Windows branch (`m_Frames`) and on the
`backtrace_symbols` branch (`messages`). -/
theorem Print_INT_MAX_reads_outside :
    sampleTrace.Print sampleWindows sampleHeader sampleNatives INT_MAX =
        { out := stacktraceHeader, reads := [INT_MIN], fault := true }
    ∧ sampleTrace.Print sampleUnix sampleHeader sampleNatives INT_MAX =
        { out := stacktraceHeader, reads := [INT_MIN], fault := true } :=
  ⟨Print_negative_start sampleWindows sampleHeader sampleNatives sampleTrace INT_MAX rfl
      (by decide) (Or.inl rfl),
   Print_negative_start sampleUnix sampleHeader sampleNatives sampleTrace INT_MAX rfl
      (by decide) (Or.inr ⟨rfl, rfl⟩)⟩

/-- C9 at its failing input: with `m_Count` an `int` and `ignoreFrames = -2`
the loop starts at `i = -1`, passes `i < m_Count` and reads the entry at index
`-1`, on both branches. -/
theorem Print_negative_ignoreFrames_reads_outside :
    sampleTrace.Print sampleWindows sampleHeader sampleNatives (-2) =
        { out := stacktraceHeader, reads := [-1], fault := true }
    ∧ sampleTrace.Print sampleUnix sampleHeader sampleNatives (-2) =
        { out := stacktraceHeader, reads := [-1], fault := true } :=
  ⟨Print_negative_start sampleWindows sampleHeader sampleNatives sampleTrace (-2) rfl
      (by decide) (Or.inl rfl),
   Print_negative_start sampleUnix sampleHeader sampleNatives sampleTrace (-2) rfl
      (by decide) (Or.inr ⟨rfl, rfl⟩)⟩

/-- C3 at its failing input: on the Windows branch the text ends with the line
break of the last frame line; no blank line follows (the `backtrace_symbols`
branch writes one, `trailerOf`). -/
theorem Print_windows_no_trailing_blank_line :
    (sampleTrace.Print sampleWindows sampleHeader sampleNatives 0).out =
        stacktraceHeader ++ numberedLines 0 [winMessage sampleNatives 11]
    ∧ ¬ (['\n', '\n'] <:+ (sampleTrace.Print sampleWindows sampleHeader sampleNatives 0).out) := by
  rw [Print_inbounds sampleWindows sampleHeader sampleNatives sampleTrace 0 sampleTrace_valid
    (by decide) (by decide) (Or.inl rfl)]
  constructor
  · decide
  · decide

/-! ## Descriptors without symbol information -/

theorem winMessage_fields (nat : Natives) (a : Addr) :
    winMessage nat a =
      lineField (nat.SymGetLineFromAddr64 a) ++ [':', ' '] ++ functionField (nat.SymFromAddr a) := by
  unfold winMessage lineField functionField
  cases nat.SymGetLineFromAddr64 a <;> cases nat.SymFromAddr a <;> rfl

/-- C5 as stated fails: on the `backtrace_symbols` branch, for an address the
natives know nothing about (its line is the bare `[0x4006b5]`), the frame line
is written with that line as descriptor and the output carries none of the
unknown markers. -/
theorem Print_unresolved_line_has_no_marker :
    (sampleTrace.Print sampleUnix sampleHeader sampleNoSymbols 0).out =
        stacktraceHeader ++ numberedLines 0 [sampleNoSymbols.symbolLine 11] ++ ['\n']
    ∧ ¬ hasUnknownMarker (sampleTrace.Print sampleUnix sampleHeader sampleNoSymbols 0).out := by
  rw [Print_inbounds sampleUnix sampleHeader sampleNoSymbols sampleTrace 0 sampleTrace_valid
    (by decide) (by decide) (Or.inr ⟨rfl, rfl⟩)]
  constructor
  · decide
  · decide

/-- C5 (amended): on the Windows branch the descriptor of a frame is never
empty and carries `(unknown file/line)` when the line lookup fails and
`(unknown function)` when the symbol lookup fails. On the `backtrace_symbols`
branch a line with a `(` and a `+` after it whose enclosed name
`DemangleSymbolName` turns into the empty string gets a non-empty descriptor
carrying `<unknown function>`; a line without `(`, or without `+` after its
first `(`, is the descriptor as it stands. -/
theorem descriptorOf_unknown (b : Build) (nat : Natives) (a : Addr) :
    (b.WIN32 = true →
        descriptorOf b nat a ≠ []
        ∧ (nat.SymGetLineFromAddr64 a = none → unknownFileLine <:+: descriptorOf b nat a)
        ∧ (nat.SymFromAddr a = none → unknownFunctionWin <:+: descriptorOf b nat a))
    ∧ (b.WIN32 = false →
        (∀ p q, firstAt (nat.symbolLine a) '(' p → p < q → (nat.symbolLine a)[q]? = some '+' →
          (∀ j, p < j → j < q → (nat.symbolLine a)[j]? ≠ some '+') →
          nat.DemangleSymbolName (((nat.symbolLine a).drop (p + 1)).take (q - p - 1)) = [] →
          descriptorOf b nat a ≠ [] ∧ unknownFunctionUnix <:+: descriptorOf b nat a)
        ∧ ('(' ∉ nat.symbolLine a → descriptorOf b nat a = nat.symbolLine a)
        ∧ (∀ p, firstAt (nat.symbolLine a) '(' p → '+' ∉ (nat.symbolLine a).drop p →
            descriptorOf b nat a = nat.symbolLine a)) := by
  constructor
  · intro hw
    have hd : descriptorOf b nat a = winMessage nat a := by simp [descriptorOf, hw]
    rw [hd, winMessage_fields]
    refine ⟨by simp, ?_, ?_⟩
    · intro h
      rw [h]
      exact ⟨[], [':', ' '] ++ functionField (nat.SymFromAddr a), by simp [lineField]⟩
    · intro h
      rw [h]
      exact ⟨lineField (nat.SymGetLineFromAddr64 a) ++ [':', ' '], [], by simp [functionField]⟩
  · intro hw
    have hd : descriptorOf b nat a = unixMessage nat (nat.symbolLine a) := by
      simp [descriptorOf, hw]
    rw [hd]
    refine ⟨?_, ?_, ?_⟩
    rotate_left
    · intro h
      exact unixMessage_no_paren nat _ ((strchr_none _ '(').2 h)
    · intro p hp h
      exact unixMessage_no_plus nat _ p ((strchr_some _ '(' p).2 hp) ((strchr_none _ '+').2 h)
    intro p q hp hpq hq hmin hdem
    rw [unixMessage_found nat _ p (q - p) ((strchr_some _ '(' p).2 hp)
      (strchr_plus_after _ p q hp.1 hpq hq hmin)]
    have e1 : p + (q - p) = q := by omega
    rw [e1]
    have hs : shownName nat (((nat.symbolLine a).drop (p + 1)).take (q - p - 1))
        = unknownFunctionUnix := by
      unfold shownName
      rw [hdem]
      rfl
    rw [hs]
    refine ⟨by simp, ?_⟩
    exact ⟨(nat.symbolLine a).take p ++ [':', ' '], [' ', '('] ++ (nat.symbolLine a).drop q,
      by simp⟩

/-- Witness of C5 (amended): both lookups failing on Windows, and the line
`./prog(_Z1fv+0x11) [0x4006b5]` with a name that does not demangle on Unix. -/
theorem descriptorOf_unknown_witness :
    (descriptorOf sampleWindows sampleUndemangled 10 ≠ []
      ∧ unknownFileLine <:+: descriptorOf sampleWindows sampleUndemangled 10
      ∧ unknownFunctionWin <:+: descriptorOf sampleWindows sampleUndemangled 10)
    ∧ (descriptorOf sampleUnix sampleUndemangled 10 ≠ []
      ∧ unknownFunctionUnix <:+: descriptorOf sampleUnix sampleUndemangled 10) :=
  ⟨⟨((descriptorOf_unknown sampleWindows sampleUndemangled 10).1 rfl).1,
    ((descriptorOf_unknown sampleWindows sampleUndemangled 10).1 rfl).2.1 rfl,
    ((descriptorOf_unknown sampleWindows sampleUndemangled 10).1 rfl).2.2 rfl⟩,
   ((descriptorOf_unknown sampleUnix sampleUndemangled 10).2 rfl).1 6 12
     ⟨by decide, by decide⟩ (by decide) (by decide)
     (by intro j h1 h2; interval_cases j <;> decide) rfl⟩

/-! ## Capture -/

theorem StackTraceVoid_count_unix (b : Build) (hdr : Header) (stack cells : List Addr)
    (hb : b.HAVE_BACKTRACE_SYMBOLS = true) (hp : 0 < b.sizeofPtr) :
    (StackTrace.StackTraceVoid b hdr stack cells).m_Count = min stack.length hdr.capacity := by
  unfold StackTrace.StackTraceVoid backtrace sizeofFrames sizeofFrame0
  simp only [hb, if_true, List.length_take, Nat.mul_div_cancel _ hp]
  exact Nat.min_comm _ _

theorem StackTraceVoid_count_windows (b : Build) (hdr : Header) (stack cells : List Addr)
    (hb : b.HAVE_BACKTRACE_SYMBOLS = false) (hw : b.WIN32 = true) (hp : 0 < b.sizeofPtr)
    (hc : 0 < hdr.capacity) :
    (StackTrace.StackTraceVoid b hdr stack cells).m_Count = min stack.length 1 := by
  unfold StackTrace.StackTraceVoid CaptureStackBackTrace sizeofFrames
  simp only [hb, hw, Bool.false_eq_true, if_false, if_true, List.length_take,
    Nat.div_self (Nat.mul_pos hc hp)]
  exact Nat.min_comm _ _

/-- C7 at its failing input: on a Windows build (no `backtrace`) with 64 frame
cells and a call stack of depth 3 the constructor asks
`CaptureStackBackTrace` for `sizeof(m_Frames) / sizeof(m_Frames) = 1` frame and
`m_Count` is 1, not `min 3 64 = 3`. -/
theorem StackTraceVoid_windows_captures_one :
    (StackTrace.StackTraceVoid sampleWindows sampleHeader64 [1, 2, 3] (List.replicate 64 0)).m_Count
        = 1
    ∧ sizeofFrames sampleWindows sampleHeader64 / sizeofFrames sampleWindows sampleHeader64 = 1
    ∧ min [1, 2, 3].length sampleHeader64.capacity = 3 := by
  decide

/-! ## Fault-context capture -/

theorem walkLoop_fail {σ : Type} (walk : σ → Option σ) (pc : σ → Addr) (elems : Nat)
    (frame : σ) (w : Walked) (h : walk frame = none) :
    walkLoop walk pc elems frame w = { w with calls := w.calls + 1 } := by
  rw [walkLoop]
  simp only [h]

theorem walkLoop_full {σ : Type} (walk : σ → Option σ) (pc : σ → Addr) (elems : Nat)
    (frame : σ) (w : Walked) (h : ¬ w.trace.m_Count < elems) :
    walkLoop walk pc elems frame w = { w with calls := w.calls + 1 } := by
  rw [walkLoop]
  cases walk frame with
  | none => rfl
  | some f1 => simp only [h, if_false]

theorem walkLoop_store {σ : Type} (walk : σ → Option σ) (pc : σ → Addr) (elems : Nat)
    (frame f1 : σ) (w : Walked) (h : walk frame = some f1) (hc : w.trace.m_Count < elems) :
    walkLoop walk pc elems frame w =
      walkLoop walk pc elems f1
        { trace := { m_Frames := w.trace.m_Frames.set w.trace.m_Count (pc f1),
                     m_Count := w.trace.m_Count + 1 },
          calls := w.calls + 1,
          writes := w.writes ++ [w.trace.m_Count] } := by
  rw [walkLoop]
  simp only [h, hc, if_true]

theorem walkLoop_spec {σ : Type} (walk : σ → Option σ) (pc : σ → Addr) (elems : Nat) :
    ∀ (s : Nat) (frame : σ) (w : Walked),
      w.trace.m_Count ≤ elems → elems ≤ w.trace.m_Frames.length →
      (walkN walk s frame).isSome →
      (walkN walk (s + 1) frame = none ∨ elems ≤ w.trace.m_Count + s) →
      (walkLoop walk pc elems frame w).trace.m_Count = min (w.trace.m_Count + s) elems
      ∧ (walkLoop walk pc elems frame w).calls
          = w.calls + (min (w.trace.m_Count + s) elems - w.trace.m_Count) + 1
      ∧ (∀ x ∈ (walkLoop walk pc elems frame w).writes, x ∈ w.writes ∨ x < elems)
      ∧ (∀ j, j < w.trace.m_Count →
          (walkLoop walk pc elems frame w).trace.m_Frames[j]? = w.trace.m_Frames[j]?)
      ∧ (∀ j, w.trace.m_Count ≤ j → j < (walkLoop walk pc elems frame w).trace.m_Count →
          (walkLoop walk pc elems frame w).trace.m_Frames[j]?
            = (walkN walk (j - w.trace.m_Count + 1) frame).map pc) := by
  intro s
  induction s with
  | zero =>
    intro frame w hc hlen _ hstop
    have hres : walkLoop walk pc elems frame w = { w with calls := w.calls + 1 } := by
      cases hwalk : walk frame with
      | none => exact walkLoop_fail walk pc elems frame w hwalk
      | some f1 =>
        rcases hstop with h | h
        · simp [walkN, hwalk] at h
        · exact walkLoop_full walk pc elems frame w (by omega)
    rw [hres]
    refine ⟨by simp; omega, by simp, fun x hx => Or.inl hx, fun _ _ => rfl, ?_⟩
    intro j h1 h2
    simp at h2
    omega
  | succ s ih =>
    intro frame w hc hlen hsome hstop
    cases hwalk : walk frame with
    | none => simp [walkN, hwalk] at hsome
    | some f1 =>
      have hsome1 : (walkN walk s f1).isSome := by simpa [walkN, hwalk] using hsome
      by_cases hlt : w.trace.m_Count < elems
      · rw [walkLoop_store walk pc elems frame f1 w hwalk hlt]
        have hstop1 : walkN walk (s + 1) f1 = none ∨ elems ≤ w.trace.m_Count + 1 + s := by
          rcases hstop with h | h
          · left
            have h2 : walkN walk (s + 1 + 1) frame = walkN walk (s + 1) f1 := by
              conv_lhs => rw [walkN]
              simp [hwalk]
            rw [← h2]; exact h
          · right; omega
        obtain ⟨r1, r2, r3, r4, r5⟩ := ih f1
          { trace := { m_Frames := w.trace.m_Frames.set w.trace.m_Count (pc f1),
                       m_Count := w.trace.m_Count + 1 },
            calls := w.calls + 1,
            writes := w.writes ++ [w.trace.m_Count] }
          (by simp; omega) (by simp; omega) hsome1 (by simpa using hstop1)
        simp only at r1 r2 r3 r4 r5
        refine ⟨by rw [r1]; congr 1; omega, by rw [r2]; omega, ?_, ?_, ?_⟩
        · intro x hx
          rcases r3 x hx with h | h
          · rcases List.mem_append.1 h with h | h
            · exact Or.inl h
            · right; simp at h; omega
          · exact Or.inr h
        · intro j hj
          rw [r4 j (by omega)]
          rw [List.getElem?_set_ne (by omega)]
        · intro j h1 h2
          by_cases hj : j = w.trace.m_Count
          · subst hj
            rw [r4 _ (by omega)]
            rw [List.getElem?_set_self (by omega)]
            simp [walkN, hwalk]
          · rw [r5 j (by omega) h2]
            have e : j - w.trace.m_Count + 1 = (j - (w.trace.m_Count + 1) + 1) + 1 := by omega
            rw [e]
            conv_rhs => rw [walkN]
            simp [hwalk]
      · rw [walkLoop_full walk pc elems frame w hlt]
        refine ⟨by simp; omega, by simp; omega, fun x hx => Or.inl hx, fun _ _ => rfl, ?_⟩
        intro j h1 h2
        simp at h2
        omega

/-- C8: if `StackWalk64` succeeds on its first `s` calls and then fails, or
succeeds on at least `capacity` calls, the fault-context constructor ends with
`m_Count = min s capacity`, `m_Frames[j]` for `j < m_Count` is the program
counter of the frame after `j + 1` successful steps, every write to `m_Frames`
is at an index below `capacity`, and the loop makes `min s capacity + 1`, so
at most `capacity + 1`, calls of `StackWalk64`. -/
theorem StackTraceExi_walk {σ : Type} (b : Build) (hdr : Header) (walk : σ → Option σ)
    (pc : σ → Addr) (frame : σ) (cells : List Addr) (s : Nat)
    (hp : 0 < b.sizeofPtr) (hcells : cells.length = hdr.capacity)
    (hsucc : (walkN walk s frame).isSome)
    (hstop : walkN walk (s + 1) frame = none ∨ hdr.capacity ≤ s) :
    (StackTrace.StackTraceExi b hdr walk pc frame cells).trace.m_Count = min s hdr.capacity
    ∧ (∀ j, j < (StackTrace.StackTraceExi b hdr walk pc frame cells).trace.m_Count →
        (StackTrace.StackTraceExi b hdr walk pc frame cells).trace.m_Frames[j]?
          = (walkN walk (j + 1) frame).map pc)
    ∧ (∀ x ∈ (StackTrace.StackTraceExi b hdr walk pc frame cells).writes, x < hdr.capacity)
    ∧ (StackTrace.StackTraceExi b hdr walk pc frame cells).calls = min s hdr.capacity + 1
    ∧ (StackTrace.StackTraceExi b hdr walk pc frame cells).calls ≤ hdr.capacity + 1 := by
  have helems : sizeofFrames b hdr / sizeofFrame0 b = hdr.capacity := by
    unfold sizeofFrames sizeofFrame0
    exact Nat.mul_div_cancel _ hp
  unfold StackTrace.StackTraceExi
  rw [helems]
  obtain ⟨r1, r2, r3, r4, r5⟩ := walkLoop_spec walk pc hdr.capacity s frame
    { trace := { m_Frames := cells, m_Count := 0 }, calls := 0, writes := [] }
    (by simp) (by simp [hcells]) hsucc (by simpa using hstop)
  simp only [Nat.zero_add, Nat.sub_zero] at r1 r2 r5
  refine ⟨r1, fun j hj => r5 j (Nat.zero_le _) hj, ?_, r2, ?_⟩
  · intro x hx
    rcases r3 x hx with h | h
    · simp at h
    · exact h
  · rw [r2]
    have := Nat.min_le_right s hdr.capacity
    omega

/-- Witness of C8: a walker that succeeds three times then fails, two frame
cells. -/
theorem StackTraceExi_walk_witness :
    (StackTrace.StackTraceExi sampleWindows sampleHeader sampleWalk samplePC 0 [0, 0]).trace.m_Count
        = min 3 sampleHeader.capacity
    ∧ (∀ j, j < (StackTrace.StackTraceExi sampleWindows sampleHeader sampleWalk samplePC 0
          [0, 0]).trace.m_Count →
        (StackTrace.StackTraceExi sampleWindows sampleHeader sampleWalk samplePC 0
          [0, 0]).trace.m_Frames[j]? = (walkN sampleWalk (j + 1) 0).map samplePC)
    ∧ (∀ x ∈ (StackTrace.StackTraceExi sampleWindows sampleHeader sampleWalk samplePC 0
          [0, 0]).writes, x < sampleHeader.capacity)
    ∧ (StackTrace.StackTraceExi sampleWindows sampleHeader sampleWalk samplePC 0 [0, 0]).calls
        = min 3 sampleHeader.capacity + 1
    ∧ (StackTrace.StackTraceExi sampleWindows sampleHeader sampleWalk samplePC 0 [0, 0]).calls
        ≤ sampleHeader.capacity + 1 :=
  StackTraceExi_walk sampleWindows sampleHeader sampleWalk samplePC 0 [0, 0] 3
    (by decide) rfl (by decide) (Or.inl (by decide))

/-! ## The once flag -/

theorem step_keeps_initialized (p q : Process) (op : Op)
    (hf : p.m_OnceFlag = true)
    (he : ∃ fault rest, p.events = Event.Initialize :: Event.capture fault :: rest
      ∧ Event.Initialize ∉ rest)
    (hs : p.step op = some q) :
    q.m_OnceFlag = true ∧
      ∃ fault rest, q.events = Event.Initialize :: Event.capture fault :: rest
        ∧ Event.Initialize ∉ rest := by
  obtain ⟨fault, rest, hev, hnot⟩ := he
  cases op with
  | newTrace f =>
    simp only [Process.step, Option.some.injEq] at hs
    subst hs
    simp only [construct, call_once, hf, if_true]
    refine ⟨trivial, fault, rest ++ [Event.capture f], by simp [hev], ?_⟩
    simp [hnot]
  | printTrace t =>
    simp only [Process.step] at hs
    split at hs
    · simp only [Option.some.injEq] at hs
      subst hs
      refine ⟨hf, fault, rest ++ [Event.print t], by simp [hev], ?_⟩
      simp [hnot]
    · exact absurd hs (by simp)

theorem run_keeps_initialized (ops : List Op) :
    ∀ (p q : Process), p.m_OnceFlag = true →
      (∃ fault rest, p.events = Event.Initialize :: Event.capture fault :: rest
        ∧ Event.Initialize ∉ rest) →
      p.run ops = some q →
      q.m_OnceFlag = true ∧
        ∃ fault rest, q.events = Event.Initialize :: Event.capture fault :: rest
          ∧ Event.Initialize ∉ rest := by
  induction ops with
  | nil =>
    intro p q hf he hr
    simp only [Process.run, Option.some.injEq] at hr
    subst hr
    exact ⟨hf, he⟩
  | cons op ops ih =>
    intro p q hf he hr
    simp only [Process.run] at hr
    cases hs : p.step op with
    | none => simp [hs] at hr
    | some m =>
      rw [hs] at hr
      obtain ⟨hf1, he1⟩ := step_keeps_initialized p m op hf he hs
      exact ih m q hf1 he1 hr

/-- C10: with the once flag as process state, after any non-empty sequence of
constructions (of either kind) and prints from process start, `Initialize` has
run exactly once: it is the first event, the capture of the first construction
comes right after it, and it does not occur again; so every `Print` event comes
after it. -/
theorem Initialize_runs_once (ops : List Op) (p : Process)
    (hrun : Process.start.run ops = some p) (hne : ops ≠ []) :
    ∃ fault rest, p.events = Event.Initialize :: Event.capture fault :: rest
      ∧ Event.Initialize ∉ rest
      ∧ p.events.count Event.Initialize = 1
      ∧ (∀ t, Event.print t ∈ p.events → Event.print t ∈ rest) := by
  cases ops with
  | nil => exact absurd rfl hne
  | cons op ops =>
    simp only [Process.run] at hrun
    cases op with
    | printTrace t => simp [Process.step, Process.start] at hrun
    | newTrace f =>
      simp only [Process.step, Option.some_bind] at hrun
      have h0 : (construct f Process.start).m_OnceFlag = true := by
        simp [construct, call_once, Process.start]
      have h1 : ∃ fault rest, (construct f Process.start).events
          = Event.Initialize :: Event.capture fault :: rest ∧ Event.Initialize ∉ rest :=
        ⟨f, [], by simp [construct, call_once, Process.start], by simp⟩
      obtain ⟨_, fault, rest, hev, hnot⟩ :=
        run_keeps_initialized ops (construct f Process.start) p h0 h1 hrun
      refine ⟨fault, rest, hev, hnot, ?_, ?_⟩
      · rw [hev]
        simp [List.count_cons, List.count_eq_zero_of_not_mem hnot]
      · intro t ht
        rw [hev] at ht
        simpa using ht

/-- Witness of C10: `sampleOps` run from process start. -/
theorem Initialize_runs_once_witness :
    Process.start.run sampleOps = some sampleProcess ∧ sampleOps ≠ [] ∧
    ∃ fault rest, sampleProcess.events = Event.Initialize :: Event.capture fault :: rest
      ∧ Event.Initialize ∉ rest
      ∧ sampleProcess.events.count Event.Initialize = 1
      ∧ (∀ t, Event.print t ∈ sampleProcess.events → Event.print t ∈ rest) :=
  ⟨by decide, by decide, Initialize_runs_once sampleOps sampleProcess (by decide) (by decide)⟩

/-! ## Where the loop stays inside the array -/

theorem Print_past_the_end (b : Build) (hdr : Header) (nat : Natives) (t : StackTrace) (k : Int)
    (hv : t.Valid hdr)
    (hb : b.WIN32 = true ∨ (b.HAVE_BACKTRACE_SYMBOLS = true ∧ nat.symbolsAllocated = true))
    (hk : (t.m_Count : Int) ≤ k) (hk2 : k < INT_MAX) :
    t.Print b hdr nat k =
      { out := stacktraceHeader ++ trailerOf b, reads := [], fault := false } := by
  rw [Print_inbounds b hdr nat t k hv (by omega) hk2 hb]
  have hnil : (t.m_Frames.take t.m_Count).drop (k + 1).toNat = [] := by
    apply List.drop_eq_nil_of_le
    simp only [List.length_take]
    omega
  have hz : t.m_Count - (k + 1).toNat = 0 := by omega
  rw [hnil, hz]
  simp [numberedLines]

theorem Print_reads_inside (b : Build) (hdr : Header) (nat : Natives) (t : StackTrace) (k : Int)
    (hv : t.Valid hdr)
    (hb : b.WIN32 = true ∨ (b.HAVE_BACKTRACE_SYMBOLS = true ∧ nat.symbolsAllocated = true))
    (hk1 : -1 ≤ k) (hk2 : k < INT_MAX) :
    (t.Print b hdr nat k).fault = false
    ∧ ∀ i ∈ (t.Print b hdr nat k).reads, 0 ≤ i ∧ i < (t.m_Count : Int) := by
  rw [Print_inbounds b hdr nat t k hv hk1 hk2 hb]
  refine ⟨rfl, ?_⟩
  intro i hi
  simp only [List.mem_map, List.mem_range'_1] at hi
  obtain ⟨x, ⟨h1, h2⟩, rfl⟩ := hi
  constructor
  · exact Int.ofNat_nonneg x
  · show ((x : Nat) : Int) < _
    omega

theorem Print_unsigned_start_outside (b : Build) (hdr : Header) (nat : Natives) (t : StackTrace)
    (k : Int) (hv : t.Valid hdr) (hu : hdr.countUnsigned = true)
    (h1 : INT_MIN ≤ wrapInt (k + 1)) (hneg : wrapInt (k + 1) < 0)
    (hb : b.WIN32 = true ∨ (b.HAVE_BACKTRACE_SYMBOLS = true ∧ nat.symbolsAllocated = true)) :
    t.Print b hdr nat k =
      { out := stacktraceHeader ++ trailerOf b, reads := [], fault := false } := by
  have hmax := hv.2.2
  have hlt : ltCount hdr (wrapInt (k + 1)) t.m_Count = false := by
    unfold ltCount
    unfold INT_MAX at hmax
    unfold INT_MIN at h1
    simp only [hu, if_true, decide_eq_false_iff_not]
    omega
  unfold StackTrace.Print
  by_cases hw : b.WIN32 = true
  · simp only [hw, Bool.not_true, Bool.false_eq_true, if_false]
    rw [printLoop_stop _ _ _ _ _ _ _ _ (by simp [hlt])]
    simp [trailerOf, hw]
  · rcases hb with hb | ⟨hb1, hb2⟩
    · exact absurd hb hw
    · have hw2 : b.WIN32 = false := by simpa using hw
      simp only [hw2, Bool.not_false, if_true, hb1, backtrace_symbols, hb2, Option.isSome_some,
        Option.getD_some]
      rw [printLoop_stop _ _ _ _ _ _ _ _ (by simp [hlt])]
      simp [trailerOf, hw2]

theorem wrapInt_range (x : Int) : INT_MIN ≤ wrapInt x ∧ wrapInt x ≤ INT_MAX := by
  unfold wrapInt INT_MIN INT_MAX
  omega

theorem Print_unsigned_count_reads_inside (b : Build) (hdr : Header) (nat : Natives)
    (t : StackTrace) (k : Int) (hv : t.Valid hdr) (hu : hdr.countUnsigned = true)
    (hk1 : INT_MIN ≤ k) (hk2 : k ≤ INT_MAX)
    (hb : b.WIN32 = true ∨ (b.HAVE_BACKTRACE_SYMBOLS = true ∧ nat.symbolsAllocated = true)) :
    (t.Print b hdr nat k).fault = false
    ∧ ∀ i ∈ (t.Print b hdr nat k).reads, 0 ≤ i ∧ i < (t.m_Count : Int) := by
  by_cases hin : -1 ≤ k ∧ k < INT_MAX
  · exact Print_reads_inside b hdr nat t k hv hb hin.1 hin.2
  · have hneg : wrapInt (k + 1) < 0 := by
      unfold wrapInt
      unfold INT_MIN at hk1
      unfold INT_MAX at hk2 hin
      omega
    rw [Print_unsigned_start_outside b hdr nat t k hv hu (wrapInt_range _).1 hneg hb]
    exact ⟨rfl, fun i hi => absurd hi (by simp)⟩

/-! ## Windows descriptors -/

/-- C6: on the Windows branch every printed frame has the descriptor
`L ++ ": " ++ F`, where `L` is `file:line` when `SymGetLineFromAddr64` succeeds
and `(unknown file/line)` otherwise, and `F` is `name+displacement` when
`SymFromAddr` succeeds and `(unknown function)` otherwise; `L` is computed from
the outcome of the line lookup alone (`lineField`) and `F` from that of the
symbol lookup alone (`functionField`). The printed frames are the frames
`ignoreFrames + 1, ...` of the trace when `-1 ≤ ignoreFrames < INT_MAX`. -/
theorem Print_windows_descriptors (b : Build) (hdr : Header) (nat : Natives) (t : StackTrace)
    (k : Int) (hw : b.WIN32 = true) (hv : t.Valid hdr) (hk1 : INT_MIN ≤ k) (hk2 : k ≤ INT_MAX) :
    (∃ printed : List Addr,
      (t.Print b hdr nat k).out =
        stacktraceHeader ++
          numberedLines 0 (printed.map
            (fun a => lineField (nat.SymGetLineFromAddr64 a) ++ [':', ' ']
              ++ functionField (nat.SymFromAddr a)))
      ∧ (-1 ≤ k → k < INT_MAX →
          printed = (t.m_Frames.take t.m_Count).drop (k + 1).toNat))
    ∧ lineField none = unknownFileLine
    ∧ functionField none = unknownFunctionWin
    ∧ (∀ file line, lineField (some (file, line)) = file ++ [':'] ++ showNat line)
    ∧ (∀ name displacement,
        functionField (some (name, displacement)) = name ++ ['+'] ++ showNat displacement) := by
  refine ⟨?_, rfl, rfl, fun _ _ => rfl, fun _ _ => rfl⟩
  have hd : descriptorOf b nat = fun a => lineField (nat.SymGetLineFromAddr64 a) ++ [':', ' ']
      ++ functionField (nat.SymFromAddr a) := by
    funext a
    simp only [descriptorOf, hw, if_true, winMessage_fields]
  by_cases hin : -1 ≤ k ∧ k < INT_MAX
  · refine ⟨(t.m_Frames.take t.m_Count).drop (k + 1).toNat, ?_, fun _ _ => rfl⟩
    rw [Print_inbounds b hdr nat t k hv hin.1 hin.2 (Or.inl hw)]
    simp [hd, trailerOf, hw]
  · have hneg : wrapInt (k + 1) < 0 := by
      unfold wrapInt
      unfold INT_MIN at hk1
      unfold INT_MAX at hk2 hin
      omega
    refine ⟨[], ?_, fun h1 h2 => absurd ⟨h1, h2⟩ hin⟩
    cases hu : hdr.countUnsigned with
    | true =>
      rw [Print_unsigned_start_outside b hdr nat t k hv hu (wrapInt_range _).1 hneg (Or.inl hw)]
      simp [trailerOf, hw, numberedLines]
    | false =>
      rw [Print_negative_start b hdr nat t k hu hneg (Or.inl hw)]
      simp [numberedLines]

/-- Witness of C6: the trace of depth 2 printed with `ignoreFrames = -1`
(both frames) on Windows. -/
theorem Print_windows_descriptors_witness :
    ∃ printed : List Addr,
      (sampleTrace.Print sampleWindows sampleHeader sampleNatives (-1)).out =
        stacktraceHeader ++
          numberedLines 0 (printed.map
            (fun a => lineField (sampleNatives.SymGetLineFromAddr64 a) ++ [':', ' ']
              ++ functionField (sampleNatives.SymFromAddr a)))
      ∧ (-1 ≤ (-1 : Int) → (-1 : Int) < INT_MAX →
          printed = (sampleTrace.m_Frames.take sampleTrace.m_Count).drop ((-1 : Int) + 1).toNat) :=
  (Print_windows_descriptors sampleWindows sampleHeader sampleNatives sampleTrace (-1) rfl
    sampleTrace_valid (by decide) (by decide)).1

end Icinga
